import Mathlib

/-!
Verification of the quicknote storage and query core
(`src/ornekler/2-python.py`) against its specification.

The Python program is a small CLI note manager: notes are stored as one
JSON document, every operation loads the whole collection, mutators save
it back atomically (write to a `.tmp` path, then rename).  This file
shallowly embeds the core data model and operations:

* machine integers become `Int`/`Nat` (no overflow is relevant here);
* the filesystem becomes an explicit `FS` state (canonical file + tmp file);
* the JSON layer becomes an inductive `Json` value (the textual
  encoding/decoding performed by Python's `json` module is external
  library code; a file whose text is not valid JSON is the `.invalid`
  file state);
* Python's `re` module (external library code) is modelled by a small
  regular-expression engine: a recursive-descent compiler for the subset
  {literal characters, `.`, `|`, `*`, `+`, `?`, `(...)`, escapes} and a
  Brzozowski-derivative matcher.  Patterns using metacharacters outside
  this subset are rejected by the model's compiler; the compiler also
  rejects the patterns Python rejects (unbalanced parentheses, dangling
  repeat operators, trailing backslash).  The `IGNORECASE` flag is
  modelled by lower-casing both the compiled literals and the searched
  text.
-/

namespace Quicknote

/-! ### Regular expressions (model of the `re` library calls in `Note.matches`) -/

/-- Regular-expression syntax tree produced by `compileRe`.  `fail` matches
nothing (it arises from derivatives), `eps` matches the empty string. -/
inductive RE : Type where
  | fail : RE
  | eps : RE
  | chr : Char → RE
  | dot : RE
  | cat : RE → RE → RE
  | alt : RE → RE → RE
  | star : RE → RE
deriving DecidableEq

/-- Does the expression accept the empty string? -/
def RE.nullable : RE → Bool
  | .fail => false
  | .eps => true
  | .chr _ => false
  | .dot => false
  | .cat a b => a.nullable && b.nullable
  | .alt a b => a.nullable || b.nullable
  | .star _ => true

/-- Brzozowski derivative of the expression with respect to one character. -/
def RE.deriv : RE → Char → RE
  | .fail, _ => .fail
  | .eps, _ => .fail
  | .chr d, c => if d = c then .eps else .fail
  | .dot, _ => .eps
  | .cat a b, c =>
      if a.nullable then .alt (.cat (a.deriv c) b) (b.deriv c)
      else .cat (a.deriv c) b
  | .alt a b, c => .alt (a.deriv c) (b.deriv c)
  | .star a, c => .cat (a.deriv c) (.star a)

/-- Does the expression match some prefix of the character list? -/
def RE.acceptsFrom : RE → List Char → Bool
  | r, [] => r.nullable
  | r, c :: cs => r.nullable || RE.acceptsFrom (r.deriv c) cs

/-- Search: does the expression match somewhere inside the string?  The input
characters are lower-cased, which together with the lower-casing done by the
compiler models the `re.IGNORECASE` flag used at line 44 of the source. -/
def reSearch (r : RE) (s : String) : Bool :=
  ((s.toList.map Char.toLower).tails).any (fun t => r.acceptsFrom t)

/-- Is the character one of the repeat operators? -/
def isRep (c : Char) : Bool :=
  c = '*' || c = '+' || c = '?'

/-- Metacharacters of Python `re` that the model does not support; patterns
using them are rejected by the model's compiler. -/
def isUnsupportedMeta (c : Char) : Bool :=
  c = '[' || c = ']' || c = '\x7b' || c = '\x7d' || c = '^' || c = '$'

/-- Build the expression for one repeat operator applied to an atom. -/
def repOf (c : Char) (r : RE) : RE :=
  if c = '*' then .star r
  else if c = '+' then .cat r (.star r)
  else .alt r .eps

/-- Apply at most one trailing repeat operator to a parsed atom.  A repeat
operator immediately followed by another one is rejected, as Python rejects
`a**` with `multiple repeat`. -/
def applyReps (r : RE) : List Char → Except String (RE × List Char)
  | [] => .ok (r, [])
  | c :: rest =>
      if isRep c then
        match rest with
        | d :: _ =>
            if isRep d then .error "multiple repeat"
            else .ok (repOf c r, rest)
        | [] => .ok (repOf c r, [])
      else .ok (r, c :: rest)

mutual

/-- Parse an alternation (`a|b|c`); lowest precedence. -/
def parseAlt : Nat → List Char → Except String (RE × List Char)
  | 0, _ => .error "pattern too deep"
  | fuel + 1, cs =>
      match parseConcat fuel cs with
      | .error e => .error e
      | .ok (r, rest) =>
          match rest with
          | '|' :: rest2 =>
              match parseAlt fuel rest2 with
              | .error e => .error e
              | .ok (r2, rest3) => .ok (.alt r r2, rest3)
          | _ => .ok (r, rest)

/-- Parse a concatenation of repeated atoms; stops at `|`, `)` or the end. -/
def parseConcat : Nat → List Char → Except String (RE × List Char)
  | 0, _ => .error "pattern too deep"
  | fuel + 1, cs =>
      match cs with
      | [] => .ok (.eps, [])
      | ')' :: _ => .ok (.eps, cs)
      | '|' :: _ => .ok (.eps, cs)
      | _ =>
          match parseAtom fuel cs with
          | .error e => .error e
          | .ok (r, rest) =>
              match applyReps r rest with
              | .error e => .error e
              | .ok (r2, rest2) =>
                  match parseConcat fuel rest2 with
                  | .error e => .error e
                  | .ok (r3, rest3) => .ok (.cat r2 r3, rest3)

/-- Parse one atom: a parenthesised group, `.`, an escaped character, or a
literal character.  Literals are lower-cased (model of `re.IGNORECASE`). -/
def parseAtom : Nat → List Char → Except String (RE × List Char)
  | 0, _ => .error "pattern too deep"
  | fuel + 1, cs =>
      match cs with
      | [] => .error "expected an atom"
      | c :: rest =>
          if c = '(' then
            match parseAlt fuel rest with
            | .error e => .error e
            | .ok (r, rest2) =>
                match rest2 with
                | ')' :: rest3 => .ok (r, rest3)
                | _ => .error "missing closing parenthesis"
          else if c = '.' then .ok (.dot, rest)
          else if c = '\\' then
            match rest with
            | [] => .error "bad escape at end of pattern"
            | d :: rest2 =>
                if d.isAlphanum then .error "unsupported escape"
                else .ok (.chr d.toLower, rest2)
          else if isRep c then .error "nothing to repeat"
          else if isUnsupportedMeta c then .error "unsupported metacharacter"
          else .ok (.chr c.toLower, rest)

end

/-- Model of `re.compile(pattern, re.IGNORECASE)` (line 44 of the source) on
the supported pattern subset: returns the compiled expression, or an error
for a pattern the model treats as invalid. -/
def compileRe (pattern : String) : Except String RE :=
  let cs := pattern.toList
  match parseAlt (2 * cs.length + 8) cs with
  | .error e => .error e
  | .ok (r, []) => .ok r
  | .ok (_, _ :: _) => .error "unbalanced parenthesis"

/-! ### The Note record (source lines 32-45) -/

/-- The `Note` dataclass (source lines 32-39).  `created_at` is the ISO
timestamp kept as a string; `tags` is `none` when the Python field is `None`
(its dataclass default); `priority` is a Python `int`, hence `Int`. -/
structure Note : Type where
  id : String
  text : String
  created_at : String
  done : Bool := false
  tags : Option (List String) := none
  priority : Int := 0
deriving DecidableEq

/-- `Note.matches` (source lines 41-45): an empty pattern always matches;
otherwise the pattern is compiled case-insensitively and searched in the
text and in every tag; a pattern the compiler rejects is an error that
propagates to the caller. -/
def Note.matches (n : Note) (pattern : String) : Except String Bool :=
  if pattern = "" then .ok true
  else
    match compileRe pattern with
    | .error e => .error e
    | .ok rx => .ok (reSearch rx n.text || (n.tags.getD []).any (fun t => reSearch rx t))

/-! ### The JSON document and the store file (source lines 27, 58-72) -/

/-- JSON values, as far as the note store needs them (the store only ever
holds null, booleans, integers, strings, arrays and objects). -/
inductive Json : Type where
  | null : Json
  | bool : Bool → Json
  | num : Int → Json
  | str : String → Json
  | arr : List Json → Json
  | obj : List (String × Json) → Json

/-- Look a key up in a JSON object's field list (first occurrence wins). -/
def lookupField (fields : List (String × Json)) (k : String) : Option Json :=
  (fields.find? (fun kv => kv.1 = k)).map (fun kv => kv.2)

/-- Read a JSON string. -/
def getStr : Json → Option String
  | .str s => some s
  | _ => none

/-- Read a JSON boolean. -/
def getBool : Json → Option Bool
  | .bool b => some b
  | _ => none

/-- Read a JSON integer. -/
def getInt : Json → Option Int
  | .num i => some i
  | _ => none

/-- Decode a list of JSON strings. -/
def getStrList : List Json → Option (List String)
  | [] => some []
  | j :: js =>
      match getStr j, getStrList js with
      | some s, some ss => some (s :: ss)
      | _, _ => none

/-- Read the `tags` field: `null` is Python's `None`, an array of strings is
a list of tags. -/
def getTags : Json → Option (Option (List String))
  | .null => some none
  | .arr xs => (getStrList xs).map (fun ts => some ts)
  | _ => none

/-- The field names of the `Note` dataclass. -/
def noteFieldNames : List String :=
  ["id", "text", "created_at", "done", "tags", "priority"]

/-- Decode one record, modelling `Note(**n)` (source line 63): the required
fields `id`, `text`, `created_at` must be present, `done`/`tags`/`priority`
default to `false`/`none`/`0` when absent, and an unexpected field is an
error (Python raises `TypeError` for an unexpected keyword argument).  The
model additionally requires each present field to have its declared type;
Python's dataclass would accept ill-typed fields, but no claim depends on
an ill-typed record. -/
def noteOfJson : Json → Except String Note
  | .obj fields =>
      if fields.any (fun kv => !(noteFieldNames.contains kv.1)) then
        .error "unexpected keyword argument"
      else
        match lookupField fields "id", lookupField fields "text",
              lookupField fields "created_at" with
        | some ji, some jt, some jc =>
            match getStr ji, getStr jt, getStr jc with
            | some i, some t, some c =>
                let jdone := (lookupField fields "done").getD (.bool false)
                let jtags := (lookupField fields "tags").getD .null
                let jprio := (lookupField fields "priority").getD (.num 0)
                match getBool jdone, getTags jtags, getInt jprio with
                | some d, some tg, some p =>
                    .ok { id := i, text := t, created_at := c,
                          done := d, tags := tg, priority := p }
                | _, _, _ => .error "ill-typed field"
            | _, _, _ => .error "ill-typed field"
        | _, _, _ => .error "missing required argument"
  | _ => .error "record is not an object"

/-- Decode a list of records in order, failing at the first bad record. -/
def decodeNotes : List Json → Except String (List Note)
  | [] => .ok []
  | j :: js =>
      match noteOfJson j with
      | .error e => .error e
      | .ok n =>
          match decodeNotes js with
          | .error e => .error e
          | .ok ns => .ok (n :: ns)

/-- Decode the whole persisted document (`[Note(**n) for n in data]`,
source line 63): the document must be an array and every record must
decode; a single bad record fails the whole decode. -/
def notesOfJson : Json → Except String (List Note)
  | .arr xs => decodeNotes xs
  | _ => .error "store document is not a list"

/-- Encode one note, modelling `asdict(n)` (source line 71): all six fields
in dataclass declaration order; `tags = None` becomes JSON `null`. -/
def noteToJson (n : Note) : Json :=
  .obj [("id", .str n.id), ("text", .str n.text),
        ("created_at", .str n.created_at), ("done", .bool n.done),
        ("tags", match n.tags with
                 | none => .null
                 | some ts => .arr (ts.map (fun t => .str t))),
        ("priority", .num n.priority)]

/-- Encode a collection as the persisted document (source line 71). -/
def notesToJson (notes : List Note) : Json :=
  .arr (notes.map noteToJson)

/-- State of the canonical store file (`~/.quicknotes.json`, source line
27): missing, present but not syntactically valid JSON, or present with a
given JSON content. -/
inductive FileState : Type where
  | missing : FileState
  | invalid : FileState
  | content : Json → FileState

/-- The filesystem as the program sees it: the canonical store file and the
temporary `.tmp` file used by `save_notes`. -/
structure FS : Type where
  canonical : FileState
  tmp : Option Json := none

/-- The message `load_notes` prints to stderr when the store cannot be
read (source line 65; the model keeps a fixed line instead of
interpolating the exception text). -/
def loadErrLine : String := "[hata] Not dosyasi okunamadi"

/-- `load_notes` (source lines 58-66): a missing file is the empty
collection; a file that does not parse or whose records do not all decode
prints one stderr line and yields the empty collection; otherwise the
decoded notes.  Returns the collection together with the stderr lines. -/
def load_notes : FileState → List Note × List String
  | .missing => ([], [])
  | .invalid => ([], [loadErrLine])
  | .content j =>
      match notesOfJson j with
      | .ok ns => (ns, [])
      | .error _ => ([], [loadErrLine])

/-- First half of `save_notes` (source lines 70-71): serialize the
collection and write it to the temporary path; the canonical file is
untouched. -/
def save_write_tmp (notes : List Note) (fs : FS) : FS :=
  { fs with tmp := some (notesToJson notes) }

/-- Second half of `save_notes` (source line 72): atomically rename the
temporary file onto the canonical path. -/
def replace_onto_canonical (fs : FS) : FS :=
  match fs.tmp with
  | some j => { canonical := .content j, tmp := none }
  | none => fs

/-- `save_notes` (source lines 69-72): write tmp, then atomic replace. -/
def save_notes (notes : List Note) (fs : FS) : FS :=
  replace_onto_canonical (save_write_tmp notes fs)

/-! ### Mutators (source lines 77-109) -/

/-- `add_note` (source lines 77-88).  The fresh id and the current
timestamp are produced by `uuid`/`datetime` (external, nondeterministic),
so the model takes them as arguments.  The text is trimmed, each tag is
trimmed and empty tags are dropped, the priority is stored as given
(`int(priority)`), the collection is loaded, the note appended and the
collection saved. -/
def add_note (newId now : String) (text : String) (tags : List String)
    (priority : Int) (fs : FS) : Note × FS :=
  let note : Note :=
    { id := newId, text := text.trim, created_at := now,
      tags := some (tags.filterMap (fun t =>
        if t.trim = "" then none else some t.trim)),
      priority := priority }
  let notes := (load_notes fs.canonical).1
  (note, save_notes (notes ++ [note]) fs)

/-- The scan loop of `mark_done` (source lines 93-98): set `done := true`
on the first note with the given id, report whether one was found. -/
def set_done_first (note_id : String) : List Note → Bool × List Note
  | [] => (false, [])
  | n :: rest =>
      if n.id = note_id then (true, { n with done := true } :: rest)
      else
        let r := set_done_first note_id rest
        (r.1, n :: r.2)

/-- `mark_done` (source lines 91-101): load, set `done` on the first match,
save only when a match was found, return whether one was found. -/
def mark_done (note_id : String) (fs : FS) : Bool × FS :=
  let notes := (load_notes fs.canonical).1
  let r := set_done_first note_id notes
  (r.1, if r.1 then save_notes r.2 fs else fs)

/-- `clear_done` (source lines 104-109): load, drop the done notes, always
save the remainder, return how many were dropped. -/
def clear_done (fs : FS) : Nat × FS :=
  let notes := (load_notes fs.canonical).1
  let kept := notes.filter (fun n => !n.done)
  (notes.length - kept.length, save_notes kept fs)

/-! ### Query engine (source lines 112-136) -/

/-- Lexicographic less-or-equal on character lists: the comparison Python
uses on strings (code point by code point, a prefix sorts first). -/
def charListLe : List Char → List Char → Bool
  | [], _ => true
  | _ :: _, [] => false
  | a :: as, b :: bs => if a = b then charListLe as bs else decide (a < b)

/-- Python's string less-or-equal, on the underlying character lists. -/
def strLe (a b : String) : Bool :=
  charListLe a.toList b.toList

/-- The sort key of `search_notes` (source line 116): Python sorts by the
tuple `(-priority, created_at)`, i.e. descending priority, then ascending
creation timestamp (ISO strings compare lexicographically). -/
def noteKeyLe (a b : Note) : Prop :=
  b.priority < a.priority ∨
    (a.priority = b.priority ∧ strLe a.created_at b.created_at = true)

instance : DecidableRel noteKeyLe := fun _ _ =>
  inferInstanceAs (Decidable (_ ∨ _))

/-- The filtering comprehension of `search_notes` (source line 115): keep
the notes that match the pattern and are pending (or `include_done`); an
error from `Note.matches` propagates, so a bad pattern fails on the first
note and an empty collection never reaches the compiler. -/
def filter_matching (pattern : String) (include_done : Bool) :
    List Note → Except String (List Note)
  | [] => .ok []
  | n :: rest =>
      match n.matches pattern with
      | .error e => .error e
      | .ok m =>
          match filter_matching pattern include_done rest with
          | .error e => .error e
          | .ok rest2 => .ok (if m && (include_done || !n.done) then n :: rest2 else rest2)

/-- `search_notes` (source lines 112-117): load, filter, and sort with a
stable sort by descending priority then ascending `created_at` (Python's
`sorted` is stable; the model uses stable insertion sort, which agrees
with every stable sort on a total preorder). -/
def search_notes (pattern : String) (include_done : Bool) (fs : FS) :
    Except String (List Note) :=
  match filter_matching pattern include_done (load_notes fs.canonical).1 with
  | .error e => .error e
  | .ok kept => .ok (kept.insertionSort noteKeyLe)

/-- The statistics record returned by `stats` (source lines 130-136); the
`tags` dict, whose entries are ordered, is a list of (tag, count) pairs. -/
structure NoteStats : Type where
  total : Nat
  pending : Nat
  done : Nat
  highest_priority : Int
  tags : List (String × Nat)
deriving DecidableEq

/-- The sort key of the `tags` dict (source line 135): descending count,
then ascending tag name. -/
def tagKeyLe (a b : String × Nat) : Prop :=
  b.2 < a.2 ∨ (a.2 = b.2 ∧ strLe a.1 b.1 = true)

instance : DecidableRel tagKeyLe := fun _ _ =>
  inferInstanceAs (Decidable (_ ∨ _))

/-- Every tag occurrence in the collection, in note order (the iteration
order of the loop at source lines 127-129); `tags = None` contributes
nothing. -/
def allTags (notes : List Note) : List String :=
  notes.foldr (fun n acc => n.tags.getD [] ++ acc) []

/-- Distinct elements in first-occurrence order: the key order of the
`by_tag` dict built at source lines 126-129. -/
def firstOccurs (seen : List String) : List String → List String
  | [] => []
  | t :: rest =>
      if seen.contains t then firstOccurs seen rest
      else t :: firstOccurs (t :: seen) rest

/-- The `by_tag` dict (source lines 126-129): each distinct tag with its
occurrence count, keys in first-occurrence order. -/
def tag_counts (notes : List Note) : List (String × Nat) :=
  (firstOccurs [] (allTags notes)).map (fun t => (t, (allTags notes).count t))

/-- `max((n.priority for n in notes), default=0)` (source line 125). -/
def highestPriority : List Note → Int
  | [] => 0
  | n :: rest => rest.foldl (fun a m => max a m.priority) n.priority

/-- `stats` (source lines 120-136). -/
def stats (fs : FS) : NoteStats :=
  let notes := (load_notes fs.canonical).1
  let doneCount := (notes.filter (fun n => n.done)).length
  { total := notes.length
    pending := notes.length - doneCount
    done := doneCount
    highest_priority := highestPriority notes
    tags := (tag_counts notes).insertionSort tagKeyLe }

/-! ### Decidability of equations on results, and concrete fixtures -/

instance {α β : Type} [DecidableEq α] [DecidableEq β] : DecidableEq (Except α β) :=
  fun a b =>
    match a, b with
    | .ok x, .ok y =>
        if h : x = y then .isTrue (by rw [h]) else .isFalse (by simp [h])
    | .error x, .error y =>
        if h : x = y then .isTrue (by rw [h]) else .isFalse (by simp [h])
    | .ok _, .error _ => .isFalse (by simp)
    | .error _, .ok _ => .isFalse (by simp)

/-- The note the spec's filtering example describes: text `buy milk`, tags
`errand`. -/
def milkNote : Note :=
  { id := "n1", text := "buy milk", created_at := "2024-01-01T00:00:00",
    tags := some ["errand"] }

/-- Compiled form of the literal pattern `milk`. -/
def rxMilk : RE :=
  .cat (.chr 'm') (.cat (.chr 'i') (.cat (.chr 'l') (.cat (.chr 'k') .eps)))

/-- Note A of the spec's sort-order example: priority 1, created at `T1`. -/
def noteA : Note :=
  { id := "a", text := "A", created_at := "T1", priority := 1 }

/-- Note B of the spec's sort-order example: priority 3, created at `T2`. -/
def noteB : Note :=
  { id := "b", text := "B", created_at := "T2", priority := 3 }

/-- Note C of the spec's sort-order example: priority 1, created at `T0`. -/
def noteC : Note :=
  { id := "c", text := "C", created_at := "T0", priority := 1 }

/-- A store holding the sort-order example collection `[A, B, C]`. -/
def fsABC : FS :=
  { canonical := .content (notesToJson [noteA, noteB, noteC]) }

/-- First note of the spec's stats example: done, priority 0, tag `a`. -/
def statsNote1 : Note :=
  { id := "1", text := "x", created_at := "T", done := true,
    tags := some ["a"], priority := 0 }

/-- Second note of the spec's stats example: pending, priority 2, tags
`a`, `b`. -/
def statsNote2 : Note :=
  { id := "2", text := "y", created_at := "T", tags := some ["a", "b"],
    priority := 2 }

/-- Third note of the spec's stats example: pending, priority 2, no tags. -/
def statsNote3 : Note :=
  { id := "3", text := "z", created_at := "T", tags := some [],
    priority := 2 }

/-- A store holding the stats example collection. -/
def fsStatsEx : FS :=
  { canonical := .content (notesToJson [statsNote1, statsNote2, statsNote3]) }

/-- A record missing the required `text` field. -/
def badRecord : Json :=
  .obj [("id", .str "x"), ("created_at", .str "T")]

/-- A store whose document holds one well-formed record followed by one
record missing a required field. -/
def fsOneBadRecord : FS :=
  { canonical := .content (.arr [noteToJson noteA, badRecord]) }

/-- A store whose file is missing. -/
def fsEmpty : FS := { canonical := .missing }

/-- The Boolean filter of `search_notes` (source line 115), as a predicate:
the note matches the pattern (a failed match counts as no match; under a
successful `filter_matching` run no match fails) and is pending unless
`include_done` is set. -/
def keepNote (pattern : String) (include_done : Bool) (n : Note) : Bool :=
  (match n.matches pattern with
   | .ok true => true
   | _ => false) && (include_done || !n.done)

/-- Does the note have exactly this sort key (priority, created_at)? -/
def keyIs (p : Int) (c : String) (n : Note) : Bool :=
  decide (n.priority = p) && decide (n.created_at = c)

/-! ### Round-trip lemmas: decoding inverts encoding -/

theorem getStrList_map_str (ts : List String) :
    getStrList (ts.map (fun t => Json.str t)) = some ts := by
  induction ts with
  | nil => rfl
  | cons t ts ih => simp [getStrList, getStr, ih]

theorem noteOfJson_noteToJson (n : Note) : noteOfJson (noteToJson n) = .ok n := by
  rcases n with ⟨i, t, c, d, tg, p⟩
  cases tg with
  | none => rfl
  | some ts =>
      simp [noteOfJson, noteToJson, lookupField, noteFieldNames, getStr, getBool,
        getInt, getTags, getStrList_map_str, List.find?, List.any]

theorem decodeNotes_map_noteToJson (notes : List Note) :
    decodeNotes (notes.map noteToJson) = .ok notes := by
  induction notes with
  | nil => rfl
  | cons n ns ih => simp [decodeNotes, noteOfJson_noteToJson, ih]

theorem notesOfJson_notesToJson (notes : List Note) :
    notesOfJson (notesToJson notes) = .ok notes := by
  simp [notesOfJson, notesToJson, decodeNotes_map_noteToJson]

theorem canonical_after_save (notes : List Note) (fs : FS) :
    save_notes notes fs = { canonical := .content (notesToJson notes), tmp := none } :=
  rfl

theorem load_notes_after_save (notes : List Note) (fs : FS) :
    load_notes (save_notes notes fs).canonical = (notes, []) := by
  simp [canonical_after_save, load_notes, notesOfJson_notesToJson]

theorem decodeNotes_error_of_mem (js : List Json) (j : Json) (e : String)
    (hmem : j ∈ js) (he : noteOfJson j = .error e) :
    ∃ e2, decodeNotes js = .error e2 := by
  induction js with
  | nil => cases hmem
  | cons a as ih =>
      rcases List.mem_cons.mp hmem with h | h
      · subst h
        exact ⟨e, by simp [decodeNotes, he]⟩
      · rcases ih h with ⟨e2, h2⟩
        cases ha : noteOfJson a with
        | error e3 => exact ⟨e3, by simp [decodeNotes, ha]⟩
        | ok n => exact ⟨e2, by simp [decodeNotes, ha, h2]⟩

theorem set_done_first_hit_iff (note_id : String) (l : List Note) :
    (set_done_first note_id l).1 = true ↔ ∃ n ∈ l, n.id = note_id := by
  induction l with
  | nil => simp [set_done_first]
  | cons a as ih =>
      by_cases h : a.id = note_id
      · simp [set_done_first, h]
      · simp [set_done_first, h, ih]

theorem set_done_first_miss (note_id : String) (l : List Note)
    (h : (set_done_first note_id l).1 = false) :
    (set_done_first note_id l).2 = l := by
  induction l with
  | nil => rfl
  | cons a as ih =>
      by_cases ha : a.id = note_id
      · simp [set_done_first, ha] at h
      · simp [set_done_first, ha] at h ⊢
        exact ih h

theorem set_done_first_structure (note_id : String) (pre : List Note) (n : Note)
    (post : List Note) (hpre : ∀ m ∈ pre, m.id ≠ note_id) (hn : n.id = note_id) :
    set_done_first note_id (pre ++ n :: post) =
      (true, pre ++ { n with done := true } :: post) := by
  induction pre with
  | nil => simp [set_done_first, hn]
  | cons a as ih =>
      have ha : a.id ≠ note_id := hpre a (List.mem_cons_self a as)
      have ih2 := ih (fun m hm => hpre m (List.mem_cons_of_mem a hm))
      simp [set_done_first, ha, ih2]

theorem set_done_first_marked (note_id : String) (l : List Note)
    (h : (set_done_first note_id l).1 = true) :
    ∃ n ∈ (set_done_first note_id l).2, n.id = note_id ∧ n.done = true := by
  induction l with
  | nil => simp [set_done_first] at h
  | cons a as ih =>
      by_cases ha : a.id = note_id
      · have hs : set_done_first note_id (a :: as) =
            (true, { a with done := true } :: as) := by
          simp [set_done_first, ha]
        rw [hs]
        exact ⟨{ a with done := true }, List.mem_cons_self _ _, by simpa using ha, rfl⟩
      · have hs : set_done_first note_id (a :: as) =
            ((set_done_first note_id as).1, a :: (set_done_first note_id as).2) := by
          simp [set_done_first, ha]
        rw [hs] at h ⊢
        rcases ih h with ⟨n, hmem, hid, hdone⟩
        exact ⟨n, List.mem_cons_of_mem a hmem, hid, hdone⟩

/-! ### Order lemmas for the sort keys -/

theorem charListLe_refl (a : List Char) : charListLe a a = true := by
  induction a with
  | nil => rfl
  | cons x xs ih => simp [charListLe, ih]

theorem charListLe_total (a b : List Char) :
    charListLe a b = true ∨ charListLe b a = true := by
  induction a generalizing b with
  | nil => left; rfl
  | cons x xs ih =>
      cases b with
      | nil => right; rfl
      | cons y ys =>
          by_cases hxy : x = y
          · subst hxy
            simpa [charListLe] using ih ys
          · rcases lt_trichotomy x y with h | h | h
            · left
              simp [charListLe, hxy]
              exact h
            · exact absurd h hxy
            · right
              simp [charListLe, Ne.symm hxy]
              exact h

theorem charListLe_trans {a b c : List Char} (h1 : charListLe a b = true)
    (h2 : charListLe b c = true) : charListLe a c = true := by
  induction a generalizing b c with
  | nil => rfl
  | cons x xs ih =>
      cases b with
      | nil => simp [charListLe] at h1
      | cons y ys =>
          cases c with
          | nil => simp [charListLe] at h2
          | cons z zs =>
              by_cases hxy : x = y <;> by_cases hyz : y = z
              · subst hxy; subst hyz
                simp only [charListLe, if_pos rfl] at h1 h2 ⊢
                exact ih h1 h2
              · subst hxy
                simp only [charListLe, if_pos rfl] at h1
                simp only [charListLe, if_neg hyz] at h2
                have hlt : x < z := of_decide_eq_true h2
                simp [charListLe, ne_of_lt hlt]
                exact hlt
              · subst hyz
                simp only [charListLe, if_neg hxy] at h1
                have hlt : x < y := of_decide_eq_true h1
                simp [charListLe, hxy]
                exact hlt
              · simp only [charListLe, if_neg hxy] at h1
                simp only [charListLe, if_neg hyz] at h2
                have hlt : x < z :=
                  lt_trans (of_decide_eq_true h1) (of_decide_eq_true h2)
                simp [charListLe, ne_of_lt hlt]
                exact hlt

theorem strLe_total (a b : String) : strLe a b = true ∨ strLe b a = true :=
  charListLe_total a.toList b.toList

theorem strLe_trans {a b c : String} (h1 : strLe a b = true)
    (h2 : strLe b c = true) : strLe a c = true :=
  charListLe_trans h1 h2

instance : IsTotal Note noteKeyLe := by
  constructor
  intro a b
  rcases lt_trichotomy a.priority b.priority with h | h | h
  · exact Or.inr (Or.inl h)
  · rcases strLe_total a.created_at b.created_at with hs | hs
    · exact Or.inl (Or.inr ⟨h, hs⟩)
    · exact Or.inr (Or.inr ⟨h.symm, hs⟩)
  · exact Or.inl (Or.inl h)

instance : IsTrans Note noteKeyLe := by
  constructor
  intro a b c h1 h2
  rcases h1 with h1 | ⟨he1, hs1⟩ <;> rcases h2 with h2 | ⟨he2, hs2⟩
  · exact Or.inl (lt_trans h2 h1)
  · exact Or.inl (he2 ▸ h1)
  · exact Or.inl (he1.symm ▸ h2)
  · exact Or.inr ⟨he1.trans he2, strLe_trans hs1 hs2⟩

instance : IsTotal (String × Nat) tagKeyLe := by
  constructor
  intro a b
  rcases lt_trichotomy a.2 b.2 with h | h | h
  · exact Or.inr (Or.inl h)
  · rcases strLe_total a.1 b.1 with hs | hs
    · exact Or.inl (Or.inr ⟨h, hs⟩)
    · exact Or.inr (Or.inr ⟨h.symm, hs⟩)
  · exact Or.inl (Or.inl h)

instance : IsTrans (String × Nat) tagKeyLe := by
  constructor
  intro a b c h1 h2
  rcases h1 with h1 | ⟨he1, hs1⟩ <;> rcases h2 with h2 | ⟨he2, hs2⟩
  · exact Or.inl (lt_trans h2 h1)
  · exact Or.inl (he2 ▸ h1)
  · exact Or.inl (he1.symm ▸ h2)
  · exact Or.inr ⟨he1.trans he2, strLe_trans hs1 hs2⟩

/-! ### Lemmas about the maximum priority fold -/

theorem le_foldl_maxPrio (l : List Note) (init : Int) :
    init ≤ l.foldl (fun a m => max a m.priority) init := by
  induction l generalizing init with
  | nil => exact le_refl init
  | cons n ns ih =>
      exact le_trans (le_max_left init n.priority) (ih (max init n.priority))

theorem mem_le_foldl_maxPrio (l : List Note) (init : Int) :
    ∀ n ∈ l, n.priority ≤ l.foldl (fun a m => max a m.priority) init := by
  induction l generalizing init with
  | nil => intro n hn; cases hn
  | cons m ms ih =>
      intro n hn
      rcases List.mem_cons.mp hn with h | h
      · subst h
        exact le_trans (le_max_right init n.priority)
          (le_foldl_maxPrio ms (max init n.priority))
      · exact ih (max init m.priority) n h

theorem foldl_maxPrio_attained (l : List Note) (init : Int) :
    l.foldl (fun a m => max a m.priority) init = init ∨
    ∃ n ∈ l, l.foldl (fun a m => max a m.priority) init = n.priority := by
  induction l generalizing init with
  | nil => exact Or.inl rfl
  | cons m ms ih =>
      rcases ih (max init m.priority) with h | ⟨n, hn, he⟩
      · rcases max_choice init m.priority with hm | hm
        · exact Or.inl (by rw [List.foldl_cons, h, hm])
        · exact Or.inr ⟨m, List.mem_cons_self m ms, by rw [List.foldl_cons, h, hm]⟩
      · exact Or.inr ⟨n, List.mem_cons_of_mem m hn, he⟩

theorem highestPriority_ge (l : List Note) :
    ∀ n ∈ l, n.priority ≤ highestPriority l := by
  intro n hn
  cases l with
  | nil => cases hn
  | cons m ms =>
      rcases List.mem_cons.mp hn with h | h
      · subst h
        exact le_foldl_maxPrio ms n.priority
      · exact mem_le_foldl_maxPrio ms m.priority n h

theorem highestPriority_attained (l : List Note) (h : l ≠ []) :
    ∃ n ∈ l, highestPriority l = n.priority := by
  cases l with
  | nil => exact absurd rfl h
  | cons m ms =>
      rcases foldl_maxPrio_attained ms m.priority with h2 | ⟨n, hn, he⟩
      · exact ⟨m, List.mem_cons_self m ms, h2⟩
      · exact ⟨n, List.mem_cons_of_mem m hn, he⟩

/-! ### Lemmas about the tag-count table -/

theorem mem_firstOccurs (l : List String) (seen : List String) (t : String)
    (hl : t ∈ l) (hs : t ∉ seen) : t ∈ firstOccurs seen l := by
  induction l generalizing seen with
  | nil => cases hl
  | cons a as ih =>
      by_cases hsa : a ∈ seen
      · rcases List.mem_cons.mp hl with h | h
        · subst h
          exact absurd hsa hs
        · simpa [firstOccurs, hsa] using ih seen h hs
      · rcases List.mem_cons.mp hl with h | h
        · subst h
          simp [firstOccurs, hsa]
        · by_cases hta : t = a
          · subst hta
            simp [firstOccurs, hsa]
          · have hs2 : t ∉ a :: seen := by
              intro hmem
              rcases List.mem_cons.mp hmem with h2 | h2
              · exact hta h2
              · exact hs h2
            simp [firstOccurs, hsa]
            exact Or.inr (ih (a :: seen) h hs2)

theorem mem_tag_counts (notes : List Note) (t : String) (cnt : Nat)
    (h : (t, cnt) ∈ tag_counts notes) : cnt = (allTags notes).count t := by
  rcases List.mem_map.mp h with ⟨t2, _, he⟩
  cases he
  rfl

theorem tag_counts_complete (notes : List Note) (t : String)
    (h : t ∈ allTags notes) : ∃ cnt, (t, cnt) ∈ tag_counts notes := by
  refine ⟨(allTags notes).count t, ?_⟩
  exact List.mem_map.mpr ⟨t, mem_firstOccurs (allTags notes) [] t h (by simp), rfl⟩

/-! ### Lemmas about search filtering and sort stability -/

theorem filter_matching_eq (pattern : String) (incl : Bool) (l kept : List Note)
    (h : filter_matching pattern incl l = .ok kept) :
    kept = l.filter (keepNote pattern incl) := by
  induction l generalizing kept with
  | nil =>
      simp [filter_matching] at h
      rw [h]
      rfl
  | cons n rest ih =>
      cases hm : n.matches pattern with
      | error e => simp [filter_matching, hm] at h
      | ok m =>
          cases hr : filter_matching pattern incl rest with
          | error e => simp [filter_matching, hm, hr] at h
          | ok rest2 =>
              have ih2 := ih rest2 hr
              simp [filter_matching, hm, hr] at h
              cases m with
              | true =>
                  simp at h
                  rw [← h, List.filter_cons, ih2]
                  simp [keepNote, hm]
              | false =>
                  simp at h
                  rw [← h, List.filter_cons, ih2]
                  simp [keepNote, hm]

theorem keyIs_rel {p : Int} {c : String} {a b : Note}
    (ha : keyIs p c a = true) (hb : keyIs p c b = true) : noteKeyLe a b := by
  have ha2 : a.priority = p ∧ a.created_at = c := by simpa [keyIs] using ha
  have hb2 : b.priority = p ∧ b.created_at = c := by simpa [keyIs] using hb
  refine Or.inr ⟨?_, ?_⟩
  · rw [ha2.1, hb2.1]
  · rw [ha2.2, hb2.2]
    exact charListLe_refl _

theorem pairwise_filter_key (p : Int) (c : String) (l : List Note) :
    (l.filter (keyIs p c)).Pairwise noteKeyLe := by
  induction l with
  | nil => exact List.Pairwise.nil
  | cons a as ih =>
      by_cases h : keyIs p c a = true
      · rw [List.filter_cons_of_pos h]
        exact List.Pairwise.cons
          (fun b hb => keyIs_rel h (List.of_mem_filter hb)) ih
      · rw [List.filter_cons_of_neg (by simpa using h)]
        exact ih

theorem insertionSort_filter_key (p : Int) (c : String) (l : List Note) :
    (l.insertionSort noteKeyLe).filter (keyIs p c) = l.filter (keyIs p c) := by
  have h1 : List.Sublist (l.filter (keyIs p c)) (l.insertionSort noteKeyLe) :=
    List.sublist_insertionSort (pairwise_filter_key p c l) (List.filter_sublist l)
  have h2 : (l.filter (keyIs p c)).filter (keyIs p c) = l.filter (keyIs p c) := by
    simp [List.filter_filter]
  have h3 : List.Sublist (l.filter (keyIs p c))
      ((l.insertionSort noteKeyLe).filter (keyIs p c)) := by
    have h4 := h1.filter (keyIs p c)
    rwa [h2] at h4
  have h5 : ((l.insertionSort noteKeyLe).filter (keyIs p c)).Perm
      (l.filter (keyIs p c)) :=
    (List.perm_insertionSort noteKeyLe l).filter (keyIs p c)
  exact (h3.eq_of_length h5.length_eq.symm).symm

/-! ### Claim theorems -/

/-- C4: `load_notes` never propagates a fatal error: a missing file yields
the empty collection with no error report; a file that is not valid JSON,
or whose document does not decode into notes, yields the empty collection
together with one stderr line; a decodable document yields its notes. -/
theorem load_notes_resilient :
    load_notes .missing = ([], []) ∧
    load_notes .invalid = ([], [loadErrLine]) ∧
    (∀ j e, notesOfJson j = .error e → load_notes (.content j) = ([], [loadErrLine])) ∧
    (∀ j ns, notesOfJson j = .ok ns → load_notes (.content j) = (ns, [])) := by
  refine ⟨rfl, rfl, ?_, ?_⟩
  · intro j e he
    simp [load_notes, he]
  · intro j ns hns
    simp [load_notes, hns]

/-- Witness for C4 at a concrete unparseable document. -/
theorem load_notes_resilient_witness :
    notesOfJson Json.null = .error "store document is not a list" ∧
    load_notes (.content Json.null) = ([], [loadErrLine]) :=
  ⟨rfl, load_notes_resilient.2.2.1 Json.null "store document is not a list" rfl⟩

/-- C5: `save_notes` is atomic: writing the temporary file leaves the
canonical file exactly as it was, and the completed save leaves the
canonical file holding exactly the new serialized collection — the
canonical file is always a complete previous or new state. -/
theorem save_notes_atomic :
    (∀ notes fs, (save_write_tmp notes fs).canonical = fs.canonical) ∧
    (∀ notes fs, save_notes notes fs =
      { canonical := .content (notesToJson notes), tmp := none }) :=
  ⟨fun _ _ => rfl, fun _ _ => rfl⟩

/-- C8: save followed by load returns the very same collection,
field-for-field and even in the same order, with no error report —
regardless of the starting file state. -/
theorem save_load_roundtrip :
    ∀ notes fs, load_notes (save_notes notes fs).canonical = (notes, []) :=
  load_notes_after_save

/-- C2 counterexample: `add_note` raises no error on the out-of-range
priority 7 — it is a total function that stores the note with priority 7
in the collection, so the collection does not keep priorities in [0,3]. -/
theorem add_note_accepts_priority_7 :
    (add_note "i1" "T1" "x" [] 7 fsEmpty).1.priority = 7 ∧
    (load_notes (add_note "i1" "T1" "x" [] 7 fsEmpty).2.canonical).1 =
      [(add_note "i1" "T1" "x" [] 7 fsEmpty).1] := by
  constructor
  · rfl
  · show (load_notes (save_notes ((load_notes fsEmpty.canonical).1 ++
      [(add_note "i1" "T1" "x" [] 7 fsEmpty).1]) fsEmpty).canonical).1 = _
    rw [load_notes_after_save]
    rfl

/-- C2 amended: `add_note` performs no range validation on the priority:
it stores `int(priority)` exactly as given (the [0,3] restriction exists
only in the CLI argument parser, `choices=range(0, 4)` at source line
213), and the created note is appended to the loaded collection and
saved. -/
theorem add_note_priority_unvalidated :
    ∀ newId now text tags p fs,
      (add_note newId now text tags p fs).1.priority = p ∧
      (load_notes (add_note newId now text tags p fs).2.canonical).1 =
        (load_notes fs.canonical).1 ++ [(add_note newId now text tags p fs).1] := by
  intro newId now text tags p fs
  constructor
  · rfl
  · simp [add_note, load_notes_after_save]

/-- C10: when the store file exists but cannot be read (invalid JSON, or a
document whose records do not decode), the load degrades to the empty
collection and a subsequent mutator persists over the corrupt file:
`clear_done` returns 0 and replaces the store with the serialized empty
collection, and `add_note` replaces it with the serialized one-note
collection — the previous contents are discarded. -/
theorem corrupt_store_replaced :
    ∀ fs, (fs.canonical = .invalid ∨
           ∃ j e, fs.canonical = .content j ∧ notesOfJson j = .error e) →
      clear_done fs = (0, { canonical := .content (notesToJson []), tmp := none }) ∧
      ∀ newId now text tags p,
        (add_note newId now text tags p fs).2 =
          { canonical := .content (notesToJson [(add_note newId now text tags p fs).1]),
            tmp := none } := by
  intro fs h
  have hload : load_notes fs.canonical = ([], [loadErrLine]) := by
    rcases h with h | ⟨j, e, hj, he⟩
    · rw [h]; rfl
    · rw [hj]; simp [load_notes, he]
  constructor
  · simp [clear_done, hload, canonical_after_save]
  · intro newId now text tags p
    simp [add_note, hload, canonical_after_save]

/-- Witness for C10 at a store whose file is not valid JSON. -/
theorem corrupt_store_replaced_witness :
    clear_done { canonical := .invalid } =
      (0, { canonical := .content (notesToJson []), tmp := none }) :=
  (corrupt_store_replaced { canonical := .invalid } (Or.inl rfl)).1

/-- C9 counterexample: a document holding one well-formed record (which
decodes on its own) and one record missing the required `text` field makes
`load_notes` return the empty collection — the well-formed note is not
returned, contradicting per-record resilience. -/
theorem load_one_bad_record_drops_all :
    load_notes fsOneBadRecord.canonical = ([], [loadErrLine]) ∧
    noteA ∉ (load_notes fsOneBadRecord.canonical).1 ∧
    noteOfJson (noteToJson noteA) = .ok noteA ∧
    noteOfJson badRecord = .error "missing required argument" := by
  refine ⟨rfl, ?_, noteOfJson_noteToJson noteA, rfl⟩
  have h : load_notes fsOneBadRecord.canonical = ([], [loadErrLine]) := rfl
  rw [h]
  simp

/-- C9 amended: when any record of the persisted document fails to decode
(for instance because a required field is missing), the whole load takes
the resilience path: `load_notes` reports one stderr line and returns the
empty collection, dropping the well-formed records as well. -/
theorem load_empty_when_any_record_bad :
    ∀ js j e, j ∈ js → noteOfJson j = .error e →
      load_notes (.content (.arr js)) = ([], [loadErrLine]) := by
  intro js j e hmem he
  rcases decodeNotes_error_of_mem js j e hmem he with ⟨e2, h2⟩
  simp [load_notes, notesOfJson, h2]

/-- Witness for the amended C9 at the concrete two-record document. -/
theorem load_empty_when_any_record_bad_witness :
    load_notes (.content (.arr [noteToJson noteA, badRecord])) = ([], [loadErrLine]) :=
  load_empty_when_any_record_bad [noteToJson noteA, badRecord] badRecord
    "missing required argument" (by simp) rfl

/-- C1: whenever the filtering pass succeeds, `search_notes` returns
exactly the loaded notes that match the pattern and are pending (or
`include_done` is set), arranged by the stable insertion sort under
`noteKeyLe` (descending priority, then ascending `created_at`): the result
is a permutation of the filtered list, is sorted by that key, and notes
sharing both keys keep their loaded relative order (the key-class
sublists are unchanged).  For the spec's example collection
A(priority 1, T1), B(priority 3, T2), C(priority 1, T0), searching with
the empty pattern and `include_done` returns `[B, C, A]`. -/
theorem search_notes_spec :
    (∀ (pattern : String) (incl : Bool) (fs : FS) (kept : List Note),
        filter_matching pattern incl (load_notes fs.canonical).1 = .ok kept →
        search_notes pattern incl fs = .ok (kept.insertionSort noteKeyLe) ∧
        kept = (load_notes fs.canonical).1.filter (keepNote pattern incl) ∧
        ((kept.insertionSort noteKeyLe).Perm kept ∧
         (kept.insertionSort noteKeyLe).Sorted noteKeyLe) ∧
        (∀ p c, (kept.insertionSort noteKeyLe).filter (keyIs p c) =
                kept.filter (keyIs p c))) ∧
    search_notes "" true fsABC = .ok [noteB, noteC, noteA] := by
  refine ⟨?_, by decide⟩
  intro pattern incl fs kept h
  refine ⟨by simp [search_notes, h],
    filter_matching_eq pattern incl (load_notes fs.canonical).1 kept h,
    ⟨List.perm_insertionSort noteKeyLe kept,
     List.sorted_insertionSort noteKeyLe kept⟩,
    fun p c => insertionSort_filter_key p c kept⟩

/-- Witness for C1: on the example store the filtering pass succeeds with
`[A, B, C]` and the characterization applies to it. -/
theorem search_notes_spec_witness :
    filter_matching "" true (load_notes fsABC.canonical).1 =
      .ok [noteA, noteB, noteC] ∧
    search_notes "" true fsABC =
      .ok ([noteA, noteB, noteC].insertionSort noteKeyLe) :=
  ⟨by decide,
   (search_notes_spec.1 "" true fsABC [noteA, noteB, noteC] (by decide)).1⟩

/-- C3: `Note.matches` returns true on the empty pattern; on a pattern the
compiler accepts it returns exactly whether the case-insensitive
expression is found somewhere in the text or in some tag; a pattern the
compiler rejects makes `matches` fail with that same error, propagated to
the caller rather than swallowed; and the spec's example holds: the note
with text `buy milk` and tags `[errand]` matches `milk` and `errand` but
not `coffee`. -/
theorem matches_spec :
    (∀ n : Note, n.matches "" = .ok true) ∧
    (∀ (n : Note) (pattern : String) (rx : RE),
        compileRe pattern = .ok rx → pattern ≠ "" →
        n.matches pattern =
          .ok (reSearch rx n.text ||
               (n.tags.getD []).any (fun t => reSearch rx t))) ∧
    (∀ (n : Note) (pattern : String) (e : String),
        compileRe pattern = .error e → n.matches pattern = .error e) ∧
    (milkNote.matches "milk" = .ok true ∧
     milkNote.matches "errand" = .ok true ∧
     milkNote.matches "coffee" = .ok false) := by
  refine ⟨?_, ?_, ?_, by decide, by decide, by decide⟩
  · intro n
    simp [Note.matches]
  · intro n pattern rx hc hne
    simp [Note.matches, hne, hc]
  · intro n pattern e hc
    have hne : pattern ≠ "" := by
      intro hp
      subst hp
      rw [show compileRe "" = (.ok .eps : Except String RE) from rfl] at hc
      cases hc
    simp [Note.matches, hne, hc]

/-- Witness for C3: the concrete pattern `milk` compiles to `rxMilk` and
the general matching equation applies to it; the concrete pattern `(` is
rejected and the error propagates out of `matches`. -/
theorem matches_spec_witness :
    compileRe "milk" = .ok rxMilk ∧
    milkNote.matches "milk" =
      .ok (reSearch rxMilk milkNote.text ||
           (milkNote.tags.getD []).any (fun t => reSearch rxMilk t)) ∧
    compileRe "(" = .error "missing closing parenthesis" ∧
    milkNote.matches "(" = .error "missing closing parenthesis" :=
  ⟨by decide,
   matches_spec.2.1 milkNote "milk" rxMilk (by decide) (by decide),
   by decide,
   matches_spec.2.2.1 milkNote "(" "missing closing parenthesis" (by decide)⟩

/-- C6: `mark_done` returns true exactly when the loaded collection has a
note with the id; on a miss it returns false and leaves the filesystem
untouched; on a hit it saves the collection with `done := true` on the
first matching note and everything else unchanged; and calling it twice
with the same existing id returns true both times and leaves a matching
note with `done = true` in the store, with no error. -/
theorem mark_done_spec :
    (∀ note_id fs, (mark_done note_id fs).1 = true ↔
        ∃ n ∈ (load_notes fs.canonical).1, n.id = note_id) ∧
    (∀ note_id fs, (mark_done note_id fs).1 = false →
        mark_done note_id fs = (false, fs)) ∧
    (∀ note_id fs pre n post,
        (load_notes fs.canonical).1 = pre ++ n :: post →
        (∀ m ∈ pre, m.id ≠ note_id) → n.id = note_id →
        mark_done note_id fs =
          (true, save_notes (pre ++ { n with done := true } :: post) fs)) ∧
    (∀ note_id fs, (mark_done note_id fs).1 = true →
        (mark_done note_id (mark_done note_id fs).2).1 = true ∧
        ∃ n ∈ (load_notes (mark_done note_id (mark_done note_id fs).2).2.canonical).1,
          n.id = note_id ∧ n.done = true) := by
  have hfst : ∀ note_id fs,
      (mark_done note_id fs).1 = (set_done_first note_id (load_notes fs.canonical).1).1 :=
    fun _ _ => rfl
  have hsnd_hit : ∀ note_id fs,
      (set_done_first note_id (load_notes fs.canonical).1).1 = true →
      (mark_done note_id fs).2 =
        save_notes (set_done_first note_id (load_notes fs.canonical).1).2 fs := by
    intro note_id fs h
    simp [mark_done, h]
  refine ⟨?_, ?_, ?_, ?_⟩
  · intro note_id fs
    rw [hfst]
    exact set_done_first_hit_iff note_id (load_notes fs.canonical).1
  · intro note_id fs h
    rw [hfst] at h
    simp [mark_done, h]
  · intro note_id fs pre n post hload hpre hn
    have hs := set_done_first_structure note_id pre n post hpre hn
    simp [mark_done, hload, hs]
  · intro note_id fs h
    rw [hfst] at h
    have h2 := hsnd_hit note_id fs h
    have hreload :
        (load_notes (mark_done note_id fs).2.canonical).1 =
          (set_done_first note_id (load_notes fs.canonical).1).2 := by
      rw [h2, load_notes_after_save]
    have hmem2 : ∃ n ∈ (load_notes (mark_done note_id fs).2.canonical).1,
        n.id = note_id := by
      rw [hreload]
      rcases set_done_first_marked note_id (load_notes fs.canonical).1 h with
        ⟨n, hmem, hid, _⟩
      exact ⟨n, hmem, hid⟩
    have hhit2 : (mark_done note_id (mark_done note_id fs).2).1 = true := by
      rw [hfst]
      exact (set_done_first_hit_iff note_id _).mpr hmem2
    refine ⟨hhit2, ?_⟩
    have h3 := hsnd_hit note_id (mark_done note_id fs).2 (by rw [← hfst]; exact hhit2)
    rw [h3, load_notes_after_save]
    exact set_done_first_marked note_id _ (by rw [← hfst]; exact hhit2)

/-- C7: `stats` returns the collection size as `total`, the done count as
`done`, `pending = total - done`, `highest_priority` the maximum priority
(0 for the empty collection), and `tags` the occurrence-count table of all
tags, sorted by descending count then ascending tag name; and the spec's
example evaluates to `total 3, pending 2, done 1, highest_priority 2,
tags a:2 b:1`. -/
theorem stats_spec :
    (∀ fs,
      ((stats fs).total = (load_notes fs.canonical).1.length ∧
       (stats fs).done =
         ((load_notes fs.canonical).1.filter (fun n => n.done)).length ∧
       (stats fs).pending = (stats fs).total - (stats fs).done) ∧
      (((load_notes fs.canonical).1 = [] → (stats fs).highest_priority = 0) ∧
       (∀ n ∈ (load_notes fs.canonical).1,
          n.priority ≤ (stats fs).highest_priority) ∧
       ((load_notes fs.canonical).1 ≠ [] →
          ∃ n ∈ (load_notes fs.canonical).1,
            (stats fs).highest_priority = n.priority)) ∧
      (((stats fs).tags).Perm (tag_counts (load_notes fs.canonical).1) ∧
       ((stats fs).tags).Sorted tagKeyLe ∧
       (∀ t cnt, (t, cnt) ∈ (stats fs).tags →
          cnt = (allTags (load_notes fs.canonical).1).count t) ∧
       (∀ t, t ∈ allTags (load_notes fs.canonical).1 →
          ∃ cnt, (t, cnt) ∈ (stats fs).tags))) ∧
    stats fsStatsEx = { total := 3, pending := 2, done := 1,
                        highest_priority := 2, tags := [("a", 2), ("b", 1)] } := by
  refine ⟨?_, by decide⟩
  intro fs
  refine ⟨⟨rfl, rfl, rfl⟩, ⟨?_, ?_, ?_⟩, ?_, ?_, ?_, ?_⟩
  · intro h
    show highestPriority (load_notes fs.canonical).1 = 0
    rw [h]
    rfl
  · intro n hn
    exact highestPriority_ge (load_notes fs.canonical).1 n hn
  · intro h
    exact highestPriority_attained (load_notes fs.canonical).1 h
  · exact List.perm_insertionSort tagKeyLe (tag_counts (load_notes fs.canonical).1)
  · exact List.sorted_insertionSort tagKeyLe (tag_counts (load_notes fs.canonical).1)
  · intro t cnt hmem
    exact mem_tag_counts (load_notes fs.canonical).1 t cnt
      ((List.mem_insertionSort tagKeyLe).mp hmem)
  · intro t ht
    rcases tag_counts_complete (load_notes fs.canonical).1 t ht with ⟨cnt, hc⟩
    exact ⟨cnt, (List.mem_insertionSort tagKeyLe).mpr hc⟩

/-- Witness for C7 at the stats example store: the collection is nonempty
and the maximum is attained, and the entry `(a, 2)` counts the
occurrences of tag `a`. -/
theorem stats_spec_witness :
    ((load_notes fsStatsEx.canonical).1 ≠ [] ∧
     ∃ n ∈ (load_notes fsStatsEx.canonical).1,
       (stats fsStatsEx).highest_priority = n.priority) ∧
    2 = (allTags (load_notes fsStatsEx.canonical).1).count "a" :=
  ⟨⟨by decide, (stats_spec.1 fsStatsEx).2.1.2.2 (by decide)⟩,
   (stats_spec.1 fsStatsEx).2.2.2.2.1 "a" 2 (by decide)⟩

/-- Witness for C6: in the `[A, B, C]` store, marking id `b` twice returns
true both times. -/
theorem mark_done_spec_witness :
    (∃ n ∈ (load_notes fsABC.canonical).1, n.id = "b") ∧
    (mark_done "b" fsABC).1 = true ∧
    (mark_done "b" (mark_done "b" fsABC).2).1 = true := by
  have hmem : ∃ n ∈ (load_notes fsABC.canonical).1, n.id = "b" :=
    ⟨noteB, by decide, rfl⟩
  have h1 : (mark_done "b" fsABC).1 = true := (mark_done_spec.1 "b" fsABC).mpr hmem
  exact ⟨hmem, h1, (mark_done_spec.2.2.2 "b" fsABC h1).1⟩

end Quicknote
